import Mathlib

/-!
Shallow embedding of `msdf-atlasgen` (`main.cpp`) and proofs about the
claims of its specification.

Modelling conventions:
* `double` values are embedded as `ℚ` (exact arithmetic); `size_t` values as
  `ℕ` with explicit reduction `% 2 ^ 64` wherever the C++ computation can
  wrap.
* The external collaborators (FreeType glyph loading, msdfgen field
  rendering, the bin packer of `binpacking.h`) are parameters: a font is a
  partial map from codepoints to raw bounds and advance, and the packer is
  an arbitrary boolean oracle, exactly the contract the spec assigns them.
* File I/O is modelled by returning the artifact contents as data.
-/

/-- Word modulus of `size_t` (64-bit build). -/
def w64 : ℕ := 2 ^ 64

/-- Box with rational coordinates, the `boxd` of `binpacking.h` (that header
is not part of the sources given).  Modelled from the spec: a bounding box
is `\x7bx, y, width, height\x7d`, with accessors for `top` and `right` and a
`scale` that multiplies position and extent uniformly. -/
structure boxd where
  x : ℚ
  y : ℚ
  width : ℚ
  height : ℚ
deriving DecidableEq, Repr

/-- Modelled from the spec: the top edge of a box is `y + height`. -/
def boxd.top (b : boxd) : ℚ := b.y + b.height

/-- Modelled from the spec: the right edge of a box is `x + width`. -/
def boxd.right (b : boxd) : ℚ := b.x + b.width

/-- Modelled from the spec: SCALER multiplies the bounding box by the scale
factor, position and extent uniformly. -/
def boxd.scale (b : boxd) (s : ℚ) : boxd :=
  ⟨b.x * s, b.y * s, b.width * s, b.height * s⟩

/-- Integer box, the `box<size_t>` placement rectangle (position assigned by
the external packer, so left as data here). -/
structure boxn where
  x : ℤ
  y : ℤ
  width_ : ℤ
  height_ : ℤ
deriving DecidableEq, Repr

/-- The `Vector2` translation handed to the field renderer. -/
structure vec2 where
  x : ℚ
  y : ℚ
deriving DecidableEq, Repr

/-- `font_mode` from `main.cpp`. -/
inductive font_mode where
  | msdf
  | sdf
  | pseudo_sdf
deriving DecidableEq, Repr

/-- `texture_dimensions` from `main.cpp`. -/
structure texture_dimensions where
  width : ℕ
  height : ℕ
deriving DecidableEq, Repr

/-- `codepoint_range` from `main.cpp` (half-open `[begin_, end_)`). -/
structure codepoint_range where
  begin_ : ℕ
  end_ : ℕ
deriving DecidableEq, Repr

/-- `settings` from `main.cpp` (the file-name strings are I/O glue and
carried along unchanged). -/
structure settings where
  codepoint_ranges : List codepoint_range
  tex_dims : texture_dimensions
  use_spans : Bool
  max_char_height : ℕ
  auto_height : Bool
  spacing : ℕ
  smoothpixels : ℕ
  range : ℚ
  mode : font_mode
deriving DecidableEq, Repr

/-- `char_info` from `main.cpp`.  The opaque `Shape` and the rendered bitmap
live in the external services and carry no information the claims need, so
they are dropped; `placement.x/y` are written by the external packer and
default to `0` until then. -/
structure char_info where
  codepoint : ℕ
  bbox : boxd
  advance : ℚ
  placement : boxn := ⟨0, 0, 0, 0⟩
  translation : vec2 := ⟨0, 0⟩
deriving DecidableEq, Repr

/-- The font service: for a codepoint, either `none` (glyph absent, i.e.
`FT_Get_Char_Index` returned `0` or `loadGlyph` failed) or the raw bounding
box computed by `bounds(shape)` together with the advance width. -/
def Font : Type := ℕ → Option (boxd × ℚ)

/-- `read_shapes` from `main.cpp`: iterate every codepoint of every range in
order, keep glyphs the font has whose bounding box has positive width. -/
def read_shapes (font : Font) (ranges : List codepoint_range) : List char_info :=
  ranges.flatMap fun r =>
    (List.range' r.begin_ (r.end_ - r.begin_)).filterMap fun i =>
      match font i with
      | some (thebox, adv) =>
          if 0 < thebox.width then some { codepoint := i, bbox := thebox, advance := adv }
          else none
      | none => none

/-- The running maximum of raw bounding-box heights computed by the loop at
the top of `build_charset` (`maxheight = std::max(ch.bbox.height(), maxheight)`
starting from `0`). -/
def maxheightOf (charinfos : List char_info) : ℚ :=
  charinfos.foldl (fun m ch => max ch.bbox.height m) 0

/-- `build_charset` from `main.cpp`, geometry part (bitmap generation is the
external field renderer and is skipped during auto-sizing anyway).  Returns
the scaled records and the scale factor written to the out-parameter
`scaling`. -/
def build_charset (font : Font) (ranges : List codepoint_range)
    (max_char_height smoothpixels : ℕ) : List char_info × ℚ :=
  let charinfos := read_shapes font ranges
  let maxheight := maxheightOf charinfos
  let scaling : ℚ := (max_char_height : ℚ) / maxheight
  (charinfos.map fun ch =>
    let bbox := ch.bbox.scale scaling
    let advance := ch.advance * scaling
    let ceil_width : ℤ := ⌈bbox.width⌉
    let ceil_height : ℤ := ⌈bbox.height⌉
    let width : ℤ := ceil_width + 2 * smoothpixels
    let height : ℤ := ceil_height + 2 * smoothpixels
    let offset : vec2 := ⟨-bbox.x + smoothpixels, -bbox.y + smoothpixels⟩
    { ch with
        bbox := bbox
        advance := advance
        translation := offset
        placement := { ch.placement with width_ := width, height_ := height } },
   scaling)

/-- Per-record action of the SCALER as the claim states it: multiply the
bounding box (position and extent) and the advance width by `scaleFactor`,
set `placementRect.width/height = ceil(scaled extent) + 2*border`, and set
`renderOffset = (-scaledBox.x + border, -scaledBox.y + border)`. -/
def specScaleRecord (scaleFactor : ℚ) (border : ℕ) (ch : char_info) : char_info :=
  let scaledBox := ch.bbox.scale scaleFactor
  { ch with
      bbox := scaledBox
      advance := ch.advance * scaleFactor
      translation := ⟨-scaledBox.x + border, -scaledBox.y + border⟩
      placement := { ch.placement with
                       width_ := ⌈scaledBox.width⌉ + 2 * border
                       height_ := ⌈scaledBox.height⌉ + 2 * border } }

section Sizer

/-- State of the auto-sizer loop in `run`: `low = range.first`,
`high = range.second`, `highest` as in the source. -/
structure SizerState where
  low : ℕ
  high : ℕ
  highest : ℕ
deriving DecidableEq, Repr

/-- Initial auto-sizer state of `run`:
`range = (0, cfg.max_char_height)`, `highest = cfg.tex_dims.height + 1`
(`size_t` arithmetic, hence the reduction). -/
def initState (cfg : settings) : SizerState :=
  ⟨0, cfg.max_char_height, (cfg.tex_dims.height + 1) % w64⟩

/-- One iteration body of the auto-sizer loop in `run`, in `size_t`
arithmetic: on a successful pack probe `range.first = range.second;
range.second = min(range.first*2, highest-1)`, on a failed probe
`highest = min(highest, range.second);
range.second = range.first + (range.second-range.first)/2`. -/
def codeStep (s : SizerState) : Bool → SizerState
  | true =>
      { low := s.high
        high := min (s.high * 2 % w64) ((s.highest + w64 - 1) % w64)
        highest := s.highest }
  | false =>
      { low := s.low
        high := (s.low + (s.high + w64 - s.low) % w64 / 2) % w64
        highest := min s.highest s.high }

/-- The auto-sizer step exactly as the claim words it, in exact (non
wrapping) arithmetic: on success at `high`, set `low = high` then
`high = min(low*2, bestKnownInfeasibleUpperBound - 1)`; on failure at
`high`, set `bestKnownInfeasibleUpperBound = min(bestKnownInfeasibleUpperBound, high)`
then `high = low + (high - low)/2`. -/
def specStep (s : SizerState) : Bool → SizerState
  | true =>
      { low := s.high
        high := min (s.high * 2) (s.highest - 1)
        highest := s.highest }
  | false =>
      { low := s.low
        high := s.low + (s.high - s.low) / 2
        highest := min s.highest s.high }

/-- The `while (range.first != range.second)` loop of `run`, with fuel; each
probe outcome is the external packer's verdict on the candidate height
`range.second`, abstracted as `probe`.  Returns the terminal state, or
`none` if the loop did not finish within `fuel` iterations. -/
def autoLoop (probe : ℕ → Bool) : ℕ → SizerState → Option SizerState
  | 0, _ => none
  | fuel + 1, s =>
      if s.low = s.high then some s
      else autoLoop probe fuel (codeStep s (probe s.high))

/-- The auto-sizer loop terminates for this configuration and this
height-indexed sequence of pack-probe outcomes. -/
def sizerTerminates (cfg : settings) (probe : ℕ → Bool) : Prop :=
  ∃ fuel s', autoLoop probe fuel (initState cfg) = some s'

/-- States the auto-sizer search can reach from its initial state under a
given sequence of probe outcomes (a step is only taken while the loop guard
`range.first != range.second` holds). -/
inductive Reach (cfg : settings) (probe : ℕ → Bool) : SizerState → Prop
  | init : Reach cfg probe (initState cfg)
  | step {s : SizerState} : Reach cfg probe s → s.low ≠ s.high →
      Reach cfg probe (codeStep s (probe s.high))

/-- Invariant of the auto-sizer search (for configurations with
`max_char_height ≤ tex_dims.height < 2^63`): the window is ordered and
stays below the best known infeasible bound, which never grows. -/
def SizerInv (cfg : settings) (s : SizerState) : Prop :=
  s.low ≤ s.high ∧ s.high < s.highest ∧ s.highest ≤ cfg.tex_dims.height + 1

/-- Termination measure for the auto-sizer loop. -/
def sizerW (s : SizerState) : ℕ :=
  w64 * (s.highest - s.low) + (s.high - s.low)

end Sizer

section Serializer

/-- One row of the `font_codepoint_infos[]` table written by
`write_description`: atlas placement, bounding box edges, advance. -/
structure bitmap_glyph where
  atlas_x : ℤ
  atlas_y : ℤ
  atlas_w : ℤ
  atlas_h : ℤ
  minx : ℚ
  maxx : ℚ
  miny : ℚ
  maxy : ℚ
  advance : ℚ
deriving DecidableEq, Repr

/-- The `{ 0, 0, 0, 0, 0, 0, 0, 0, 0 }` placeholder row emitted for
codepoints with no retained glyph. -/
def zeroEntry : bitmap_glyph := ⟨0, 0, 0, 0, 0, 0, 0, 0, 0⟩

/-- The row `write_description` emits for a retained record. -/
def realEntry (ch : char_info) : bitmap_glyph :=
  ⟨ch.placement.x, ch.placement.y, ch.placement.width_, ch.placement.height_,
   ch.bbox.x, ch.bbox.right, ch.bbox.y, ch.bbox.top, ch.advance⟩

/-- One row of the `font_codepoint_spans[]` table: starting codepoint,
exclusive end, cumulative offset. -/
structure bitmap_span where
  start : ℕ
  stop : ℕ
  cumulative : ℕ
deriving DecidableEq, Repr

/-- Key order used by the `std::sort` call of `write_description`. -/
def cpLe (a b : char_info) : Prop := a.codepoint ≤ b.codepoint

instance : DecidableRel cpLe := fun a b => Nat.decLe a.codepoint b.codepoint

instance : IsTotal char_info cpLe := ⟨fun a b => Nat.le_total a.codepoint b.codepoint⟩

instance : IsTrans char_info cpLe := ⟨fun _ _ _ hab hbc => Nat.le_trans hab hbc⟩

/-- The codepoint-ascending sort performed by `write_description`
(`std::sort` by `a.codepoint < b.codepoint`; on distinct keys any sorted
permutation is unique, so insertion sort embeds it exactly). -/
def sortCharinfos (charinfos : List char_info) : List char_info :=
  List.insertionSort cpLe charinfos

/-- The inner scan of the span loop: collect the longest prefix of records
whose codepoints continue `cp + 1, cp + 2, ...` consecutively (what the
`for(; span_end<...; ++span_end)` scan measures). -/
def splitRun (cp : ℕ) : List char_info → List char_info × List char_info
  | [] => ([], [])
  | c :: rest =>
      if c.codepoint = cp + 1 then
        let p := splitRun c.codepoint rest
        (c :: p.1, p.2)
      else ([], c :: rest)

theorem splitRun_snd_length_le (cp : ℕ) (l : List char_info) :
    (splitRun cp l).2.length ≤ l.length := by
  induction l generalizing cp with
  | nil => simp [splitRun]
  | cons c rest ih =>
      simp only [splitRun]
      split
      · exact le_trans (ih c.codepoint) (Nat.le_succ _)
      · simp

/-- The span table written by the `cfg.use_spans` branch of
`write_description`, given the sorted records and the running `cumulative`
counter. -/
def spanTable : List char_info → ℕ → List bitmap_span
  | [], _ => []
  | c :: rest, cumulative =>
      let p := splitRun c.codepoint rest
      let span_size := 1 + p.1.length
      ⟨c.codepoint, c.codepoint + span_size, cumulative⟩ ::
        spanTable p.2 (cumulative + span_size)
termination_by l _ => l.length
decreasing_by
  exact Nat.lt_succ_of_le (splitRun_snd_length_le _ _)

/-- The glyph-table loop of `write_description`: emit zero placeholders for
every codepoint gap below the record (DENSE mode only), then the record's
row; `last_written` ends at `codepoint + 1` in both modes. Returns the rows
and the final `last_written`. -/
def emitEntries (use_spans : Bool) : ℕ → List char_info → List bitmap_glyph × ℕ
  | last_written, [] => ([], last_written)
  | last_written, c :: rest =>
      let pads := if use_spans then [] else
        List.replicate (c.codepoint - last_written) zeroEntry
      let p := emitEntries use_spans (c.codepoint + 1) rest
      (pads ++ realEntry c :: p.1, p.2)

/-- The description artifact (`*_desc.c`) as data: font information record,
optional span table, glyph table, and the trailing
`bitmap_chars_count = last_written + 1`. -/
structure desc_artifact where
  smooth_pixels : ℕ
  min_y : Option ℚ
  max_y : Option ℚ
  spans : Option (List bitmap_span)
  entries : List bitmap_glyph
  count : ℕ
deriving DecidableEq, Repr

/-- `write_description` from `main.cpp`: sort by codepoint, take the
vertical extremes, optionally write the span table, write the glyph table,
then write `bitmap_chars_count = last_written + 1`.  (`min_y`/`max_y`
dereference `min_element`/`max_element`, undefined on an empty record set,
hence `Option`.) -/
def write_description (charinfos : List char_info) (use_spans : Bool)
    (smoothpixels : ℕ) : desc_artifact :=
  let sorted := sortCharinfos charinfos
  let min_y := (sorted.map fun c => c.bbox.y).min?
  let max_y := (sorted.map fun c => c.bbox.top).max?
  let spans := if use_spans then some (spanTable sorted 0) else none
  let p := emitEntries use_spans 0 sorted
  { smooth_pixels := smoothpixels
    min_y := min_y
    max_y := max_y
    spans := spans
    entries := p.1
    count := p.2 + 1 }

/-- Largest retained codepoint (`0` for an empty record set). -/
def maxCp (charinfos : List char_info) : ℕ :=
  (charinfos.map fun c => c.codepoint).foldr max 0

/-- The entry DENSE mode should place at array index `k`: the unique
retained record with codepoint `k` if there is one, the zero placeholder
otherwise. -/
def denseAt (sorted : List char_info) (k : ℕ) : bitmap_glyph :=
  match sorted.find? (fun c => c.codepoint == k) with
  | some c => realEntry c
  | none => zeroEntry

end Serializer

section ImageWriter

/-- C++ `static_cast<int>` on a real value: truncation toward zero. -/
def cpp_int_trunc (q : ℚ) : ℤ := if 0 ≤ q then ⌊q⌋ else ⌈q⌉

/-- Modelled from the spec: msdfgen's `clamp(n, b)` (the header is an
external collaborator), clamping an integer to `[0, b]`. -/
def msdfgen_clamp (n b : ℤ) : ℤ := max 0 (min n b)

/-- Per-channel byte emitted by the three-channel branch of `write_image`:
`clamp(int(v * 0x100), 0xff)`, applied to each of r, g, b in turn, row
major. The float field values come from the external renderer, so the
composited buffer is a pixel function parameter. -/
def write_image_msdf_bytes (width height : ℕ) (pix : ℕ → ℕ → ℚ × ℚ × ℚ) : List ℤ :=
  (List.range height).flatMap fun y =>
    (List.range width).flatMap fun x =>
      [msdfgen_clamp (cpp_int_trunc ((pix x y).1 * 0x100)) 0xff,
       msdfgen_clamp (cpp_int_trunc ((pix x y).2.1 * 0x100)) 0xff,
       msdfgen_clamp (cpp_int_trunc ((pix x y).2.2 * 0x100)) 0xff]

/-- Byte stream emitted by the single-channel branch of `write_image`:
`clamp(int(v * 0x100), 0xff)` per pixel, row major. -/
def write_image_sdf_bytes (width height : ℕ) (pix : ℕ → ℕ → ℚ) : List ℤ :=
  (List.range height).flatMap fun y =>
    (List.range width).flatMap fun x =>
      [msdfgen_clamp (cpp_int_trunc (pix x y * 0x100)) 0xff]

/-- The quantization exactly as the claim words it:
`round(v*256)` clamped to `[0, 255]`. -/
def spec_round_byte (v : ℚ) : ℤ := msdfgen_clamp (round (v * 256)) 255

/-- The quantization the code actually performs: truncation toward zero of
`v*256`, clamped to `[0, 255]`. -/
def spec_trunc_byte (v : ℚ) : ℤ := msdfgen_clamp (cpp_int_trunc (v * 256)) 255

end ImageWriter

section Pipeline

/-- The image artifact header (`width, height, char_border, spacing`); the
pixel payload is produced by the external renderer and compositor, and is
irrelevant to every claim about artifact existence. -/
structure image_artifact where
  width : ℕ
  height : ℕ
  char_border : ℕ
  spacing : ℕ
deriving DecidableEq, Repr

/-- The nominal height the final full run uses: for `auto_height`, the
terminal `range.first` of the auto-sizer loop (`cfg.max_char_height =
range.first`), otherwise the configured height.  `none` only if the loop
did not finish within `fuel`. -/
def committed_height (cfg : settings) (probe : ℕ → Bool) (fuel : ℕ) : Option ℕ :=
  if cfg.auto_height then (autoLoop probe fuel (initState cfg)).map (fun s => s.low)
  else some cfg.max_char_height

/-- `run` from `main.cpp`: optional auto-sizing, then one full
`build_charset`, then the final `build_atlas` (the external packer `pack`);
on packing failure print the error and return without writing either
artifact, on success write both.  The outer `Option` is loop fuel
exhaustion; the inner one is whether output files were produced. -/
def run_pipeline (cfg : settings) (font : Font) (probe : ℕ → Bool)
    (pack : List char_info → Bool) (fuel : ℕ) :
    Option (Option (desc_artifact × image_artifact)) :=
  match committed_height cfg probe fuel with
  | none => none
  | some hgt =>
      let cs := build_charset font cfg.codepoint_ranges hgt cfg.smoothpixels
      if pack cs.1 then
        some (some
          (write_description cs.1 cfg.use_spans cfg.smoothpixels,
           ⟨cfg.tex_dims.width, cfg.tex_dims.height, cfg.smoothpixels, cfg.spacing⟩))
      else some none

/-- Outcome of `parse_options` inside the `try` of `main`: a thrown
`po::error`, a `--help` early exit, or a parsed configuration. -/
inductive parse_result where
  | perr
  | help
  | ok (cfg : settings)

/-- The process exit status computed by `main`, with every external effect
abstracted: the parse outcome, whether `initializeFreetype` and `loadFont`
succeed, and the data `run` needs.  Every path of the source returns `0`. -/
def main_exit (pr : parse_result) (ft_ok font_ok : Bool) (font : Font)
    (probe : ℕ → Bool) (pack : List char_info → Bool) (fuel : ℕ) : ℤ :=
  match pr with
  | .perr => 0
  | .help => 0
  | .ok cfg =>
      if ft_ok then
        if font_ok then
          let _ := run_pipeline cfg font probe pack fuel
          0
        else 0
      else 0

end Pipeline

section SizerLemmas

theorem codeStep_eq_specStep {cfg : settings} {s : SizerState}
    (hinv : SizerInv cfg s) (hT : cfg.tex_dims.height < 2 ^ 63) (ok : Bool) :
    codeStep s ok = specStep s ok := by
  obtain ⟨lo, hi, hs⟩ := s
  simp only [SizerInv] at hinv
  obtain ⟨h1, h2, h3⟩ := hinv
  cases ok <;>
    simp only [codeStep, specStep, w64, SizerState.mk.injEq, true_and, and_true] <;>
    omega

theorem sizerInv_init {cfg : settings}
    (hm : cfg.max_char_height ≤ cfg.tex_dims.height)
    (hT : cfg.tex_dims.height < 2 ^ 63) :
    SizerInv cfg (initState cfg) := by
  simp only [SizerInv, initState, w64]
  omega

theorem specStep_inv {cfg : settings} {s : SizerState}
    (hinv : SizerInv cfg s) (hne : s.low ≠ s.high) (ok : Bool) :
    SizerInv cfg (specStep s ok) := by
  obtain ⟨lo, hi, hs⟩ := s
  simp only [SizerInv] at hinv ⊢
  simp only at hne
  cases ok <;> simp only [specStep] <;> omega

theorem codeStep_inv {cfg : settings} {s : SizerState}
    (hinv : SizerInv cfg s) (hT : cfg.tex_dims.height < 2 ^ 63)
    (hne : s.low ≠ s.high) (ok : Bool) :
    SizerInv cfg (codeStep s ok) := by
  rw [codeStep_eq_specStep hinv hT]
  exact specStep_inv hinv hne ok

theorem reach_inv {cfg : settings} {probe : ℕ → Bool} {s : SizerState}
    (hm : cfg.max_char_height ≤ cfg.tex_dims.height)
    (hT : cfg.tex_dims.height < 2 ^ 63)
    (hr : Reach cfg probe s) : SizerInv cfg s := by
  induction hr with
  | init => exact sizerInv_init hm hT
  | step hr hne ih => exact codeStep_inv ih hT hne _

theorem sizerW_codeStep {cfg : settings} {s : SizerState}
    (hinv : SizerInv cfg s) (hT : cfg.tex_dims.height < 2 ^ 63)
    (hne : s.low ≠ s.high) (ok : Bool) :
    sizerW (codeStep s ok) < sizerW s := by
  rw [codeStep_eq_specStep hinv hT]
  obtain ⟨lo, hi, hs⟩ := s
  simp only [SizerInv] at hinv
  simp only at hne
  obtain ⟨h1, h2, h3⟩ := hinv
  have hsb : hs ≤ 2 ^ 63 := by omega
  cases ok <;> simp only [specStep, sizerW, w64] <;> omega

theorem autoLoop_term_of_inv {cfg : settings}
    (hT : cfg.tex_dims.height < 2 ^ 63) (probe : ℕ → Bool) :
    ∀ n s, sizerW s ≤ n → SizerInv cfg s →
      ∃ s', autoLoop probe (n + 1) s = some s' := by
  intro n
  induction n with
  | zero =>
      intro s hw hinv
      have hlh : s.low = s.high := by
        have h1 := hinv.1
        unfold sizerW w64 at hw
        omega
      exact ⟨s, by simp [autoLoop, hlh]⟩
  | succ n ih =>
      intro s hw hinv
      by_cases hlh : s.low = s.high
      · exact ⟨s, by simp [autoLoop, hlh]⟩
      · have hdec := sizerW_codeStep hinv hT hlh (probe s.high)
        obtain ⟨s', hs'⟩ :=
          ih (codeStep s (probe s.high)) (by omega) (codeStep_inv hinv hT hlh _)
        exact ⟨s', by simpa [autoLoop, hlh] using hs'⟩

theorem autoLoop_some_guard {probe : ℕ → Bool} :
    ∀ {fuel : ℕ} {s s' : SizerState},
      autoLoop probe fuel s = some s' → s'.low = s'.high := by
  intro fuel
  induction fuel with
  | zero => intro s s' h; simp [autoLoop] at h
  | succ n ih =>
      intro s s' h
      by_cases hlh : s.low = s.high
      · simp [autoLoop, hlh] at h
        subst h
        exact hlh
      · simp only [autoLoop, if_neg hlh] at h
        exact ih h

end SizerLemmas

section SizerClaims

/-- A probe oracle that always reports packing failure. -/
def probeNever : ℕ → Bool := fun _ => false

/-- A probe oracle that always reports packing success. -/
def probeAlways : ℕ → Bool := fun _ => true

/-- Concrete well-behaved configuration used by witnesses: requested
maximum height 2, texture 256 by 256, auto-height on. -/
def cfgSmall : settings :=
  ⟨[⟨65, 66⟩], ⟨256, 256⟩, false, 2, true, 2, 2, 1, font_mode.msdf⟩

/-- C1: the auto-sizer search starts at `low = 0`,
`high = requested maximum char height`,
`bestKnownInfeasibleUpperBound = texHeight + 1`; on a successful probe it
sets `low = high` then `high = min(low*2, bestKnownInfeasibleUpperBound - 1)`,
on a failed probe it sets
`bestKnownInfeasibleUpperBound = min(bestKnownInfeasibleUpperBound, high)`
then `high = low + (high-low)/2`; it terminates exactly when `low = high`,
and the height committed for the final full run is the final `low`.
(Stated for configurations whose requested height does not exceed the
texture height and whose sizes fit comfortably in `size_t`, where the
`size_t` arithmetic of the code is exact.) -/
theorem c1_autosizer_follows_spec_steps (cfg : settings) (probe : ℕ → Bool)
    (hm : cfg.max_char_height ≤ cfg.tex_dims.height)
    (hT : cfg.tex_dims.height < 2 ^ 63) :
    initState cfg = ⟨0, cfg.max_char_height, cfg.tex_dims.height + 1⟩
    ∧ (∀ s : SizerState, Reach cfg probe s → s.low ≠ s.high →
        ∀ ok : Bool, codeStep s ok = specStep s ok)
    ∧ (∀ fuel s', autoLoop probe fuel (initState cfg) = some s' →
        s'.low = s'.high
        ∧ committed_height { cfg with auto_height := true } probe fuel = some s'.low) := by
  refine ⟨?_, ?_, ?_⟩
  · simp only [initState, w64, SizerState.mk.injEq, true_and]
    omega
  · intro s hr hne ok
    exact codeStep_eq_specStep (reach_inv hm hT hr) hT ok
  · intro fuel s' h
    refine ⟨autoLoop_some_guard h, ?_⟩
    have hinit : initState { cfg with auto_height := true } = initState cfg := rfl
    simp only [committed_height, hinit, h, Option.map_some']
    exact if_pos trivial

/-- Witness for C1 at a concrete configuration and probe sequence. -/
theorem c1_witness :
    (cfgSmall.max_char_height ≤ cfgSmall.tex_dims.height
      ∧ cfgSmall.tex_dims.height < 2 ^ 63)
    ∧ (initState cfgSmall = ⟨0, cfgSmall.max_char_height, cfgSmall.tex_dims.height + 1⟩
      ∧ (∀ s : SizerState, Reach cfgSmall probeNever s → s.low ≠ s.high →
          ∀ ok : Bool, codeStep s ok = specStep s ok)
      ∧ (∀ fuel s', autoLoop probeNever fuel (initState cfgSmall) = some s' →
          s'.low = s'.high
          ∧ committed_height { cfgSmall with auto_height := true } probeNever fuel
              = some s'.low)) :=
  ⟨⟨by decide, by decide⟩,
   c1_autosizer_follows_spec_steps cfgSmall probeNever (by decide) (by decide)⟩

/-- Configuration refuting C6: requested maximum height 100 on a 2048 by
2048 texture. -/
def cfgWideTex : settings :=
  ⟨[], ⟨2048, 2048⟩, false, 100, true, 2, 2, 1, font_mode.msdf⟩

/-- Counterexample to C6 as stated: from `low = 0, high = 100,
highest = 2049`, one successful probe reaches `low = 100, high = 200`, a
live state (the loop will probe height 200 next) whose candidate height
exceeds the requested maximum char height 100. -/
theorem c6_counterexample :
    Reach cfgWideTex probeAlways ⟨100, 200, 2049⟩
    ∧ (⟨100, 200, 2049⟩ : SizerState).low ≠ (⟨100, 200, 2049⟩ : SizerState).high
    ∧ ¬ ((⟨100, 200, 2049⟩ : SizerState).high ≤ cfgWideTex.max_char_height) := by
  refine ⟨?_, by decide, by decide⟩
  have h : codeStep (initState cfgWideTex) (probeAlways (initState cfgWideTex).high)
      = ⟨100, 200, 2049⟩ := by decide
  have hr : Reach cfgWideTex probeAlways
      (codeStep (initState cfgWideTex) (probeAlways (initState cfgWideTex).high)) :=
    Reach.step Reach.init (by decide)
  rwa [h] at hr

/-- C6 amended: the probed candidate height is bounded by the texture
height (via `bestKnownInfeasibleUpperBound - 1`), not by the requested
maximum char height; under `requestedMaxHeight ≤ texHeight < 2^63` every
reachable state satisfies `high ≤ texHeight`. -/
theorem c6_probe_bounded_by_tex_height (cfg : settings) (probe : ℕ → Bool)
    (hm : cfg.max_char_height ≤ cfg.tex_dims.height)
    (hT : cfg.tex_dims.height < 2 ^ 63) :
    ∀ s : SizerState, Reach cfg probe s → s.high ≤ cfg.tex_dims.height := by
  intro s hr
  obtain ⟨h1, h2, h3⟩ := reach_inv hm hT hr
  omega

/-- Witness for the amended C6 at a concrete configuration and state. -/
theorem c6_witness :
    (cfgSmall.max_char_height ≤ cfgSmall.tex_dims.height
      ∧ cfgSmall.tex_dims.height < 2 ^ 63)
    ∧ (initState cfgSmall).high ≤ cfgSmall.tex_dims.height :=
  ⟨⟨by decide, by decide⟩,
   c6_probe_bounded_by_tex_height cfgSmall probeNever (by decide) (by decide)
     (initState cfgSmall) Reach.init⟩

/-- Configuration refuting C7: requested maximum height `2^63` on a 1 by 1
texture (`size_t` wraparound makes the search diverge). -/
def cfgC7 : settings :=
  ⟨[], ⟨1, 1⟩, false, 2 ^ 63, true, 2, 2, 1, font_mode.msdf⟩

/-- Height-indexed probe outcomes under which `cfgC7` diverges: every
height except 0 packs. -/
def probeC7 : ℕ → Bool := fun h => h != 0

theorem c7_cycle_none : ∀ fuel (s : SizerState),
    (s = ⟨2 ^ 63, 3 * 2 ^ 62, 0⟩ ∨ s = ⟨3 * 2 ^ 62, 2 ^ 63, 0⟩ ∨ s = ⟨2 ^ 63, 0, 0⟩) →
    autoLoop probeC7 fuel s = none := by
  intro fuel
  induction fuel with
  | zero => intro s _; rfl
  | succ n ih =>
      intro s hs
      rcases hs with h | h | h <;> subst h <;>
        simp only [autoLoop] <;> rw [if_neg (by decide)]
      · have hstep : codeStep ⟨2 ^ 63, 3 * 2 ^ 62, 0⟩
            (probeC7 (⟨2 ^ 63, 3 * 2 ^ 62, 0⟩ : SizerState).high)
            = ⟨3 * 2 ^ 62, 2 ^ 63, 0⟩ := by decide
        rw [hstep]
        exact ih _ (Or.inr (Or.inl rfl))
      · have hstep : codeStep ⟨3 * 2 ^ 62, 2 ^ 63, 0⟩
            (probeC7 (⟨3 * 2 ^ 62, 2 ^ 63, 0⟩ : SizerState).high)
            = ⟨2 ^ 63, 0, 0⟩ := by decide
        rw [hstep]
        exact ih _ (Or.inr (Or.inr rfl))
      · have hstep : codeStep ⟨2 ^ 63, 0, 0⟩
            (probeC7 (⟨2 ^ 63, 0, 0⟩ : SizerState).high)
            = ⟨2 ^ 63, 3 * 2 ^ 62, 0⟩ := by decide
        rw [hstep]
        exact ih _ (Or.inl rfl)

theorem c7_diverges : ∀ fuel, autoLoop probeC7 fuel (initState cfgC7) = none := by
  intro fuel
  match fuel with
  | 0 => rfl
  | 1 => decide
  | n + 2 =>
      have h1 : codeStep (initState cfgC7) (probeC7 (initState cfgC7).high)
          = ⟨2 ^ 63, 0, 2⟩ := by decide
      have h2 : codeStep ⟨2 ^ 63, 0, 2⟩ (probeC7 (⟨2 ^ 63, 0, 2⟩ : SizerState).high)
          = ⟨2 ^ 63, 3 * 2 ^ 62, 0⟩ := by decide
      show autoLoop probeC7 (n + 2) (initState cfgC7) = none
      simp only [autoLoop]
      rw [if_neg (by decide), h1, if_neg (by decide), h2]
      exact c7_cycle_none n _ (Or.inl rfl)

/-- Counterexample to C7 as stated: with texture height 1 and requested
maximum char height `2^63`, the outcome sequence "every probed height
except 0 packs" drives the search into a `size_t`-wraparound cycle, so the
loop never terminates (for no amount of fuel does it return). -/
theorem c7_counterexample : ¬ sizerTerminates cfgC7 probeC7 := by
  rintro ⟨fuel, s', h⟩
  rw [c7_diverges fuel] at h
  exact Option.noConfusion h

/-- C7 amended: the auto-sizer loop terminates for every probe-outcome
sequence provided `requestedMaxHeight ≤ texHeight < 2^63` (where the
`size_t` arithmetic cannot wrap); then `high - low` strictly shrinks on
every failed step and `low` strictly grows on every successful step. -/
theorem c7_terminates_when_bounded (cfg : settings) (probe : ℕ → Bool)
    (hm : cfg.max_char_height ≤ cfg.tex_dims.height)
    (hT : cfg.tex_dims.height < 2 ^ 63) :
    sizerTerminates cfg probe := by
  obtain ⟨s', h⟩ := autoLoop_term_of_inv hT probe (sizerW (initState cfg))
    (initState cfg) le_rfl (sizerInv_init hm hT)
  exact ⟨_, s', h⟩

/-- Witness for the amended C7 at a concrete configuration and probe. -/
theorem c7_witness :
    (cfgSmall.max_char_height ≤ cfgSmall.tex_dims.height
      ∧ cfgSmall.tex_dims.height < 2 ^ 63)
    ∧ sizerTerminates cfgSmall probeNever :=
  ⟨⟨by decide, by decide⟩,
   c7_terminates_when_bounded cfgSmall probeNever (by decide) (by decide)⟩

end SizerClaims

section ScalerClaims

theorem foldl_max_mul (f : ℚ) (hf : 0 ≤ f) :
    ∀ (l : List char_info) (a : ℚ),
      l.foldl (fun m ch => max (ch.bbox.height * f) m) (a * f)
        = (l.foldl (fun m ch => max ch.bbox.height m) a) * f := by
  intro l
  induction l with
  | nil => intro a; rfl
  | cons c rest ih =>
      intro a
      simp only [List.foldl_cons]
      rw [← max_mul_of_nonneg _ _ hf]
      exact ih (max c.bbox.height a)

theorem specScaleRecord_height (f : ℚ) (border : ℕ) (ch : char_info) :
    (specScaleRecord f border ch).bbox.height = ch.bbox.height * f := rfl

theorem maxheightOf_map_spec_scale (f : ℚ) (hf : 0 ≤ f) (l : List char_info)
    (border : ℕ) :
    maxheightOf (l.map (specScaleRecord f border)) = maxheightOf l * f := by
  unfold maxheightOf
  rw [List.foldl_map]
  simp only [specScaleRecord_height]
  have h0 : (0 : ℚ) = 0 * f := (zero_mul f).symm
  rw [h0, foldl_max_mul f hf l 0, zero_mul]

/-- C2: for a non-empty record set with positive maximum raw bounding-box
height, `build_charset` computes `scaleFactor = nominalHeight / maxRawHeight`,
transforms every record exactly as the claim states (bounding box and
advance multiplied by the factor, placement extents `ceil + 2*border`,
render offset `(-scaledBox.x + border, -scaledBox.y + border)`), and the
tallest scaled bounding-box height equals the nominal height. -/
theorem c2_scaler_nominal_height (font : Font) (ranges : List codepoint_range)
    (nominal border : ℕ)
    (hne : read_shapes font ranges ≠ [])
    (hpos : 0 < maxheightOf (read_shapes font ranges)) :
    (build_charset font ranges nominal border).2
        = (nominal : ℚ) / maxheightOf (read_shapes font ranges)
    ∧ (build_charset font ranges nominal border).1
        = (read_shapes font ranges).map
            (specScaleRecord
              ((nominal : ℚ) / maxheightOf (read_shapes font ranges)) border)
    ∧ maxheightOf (build_charset font ranges nominal border).1 = (nominal : ℚ) := by
  refine ⟨rfl, rfl, ?_⟩
  have hf : (0 : ℚ) ≤ (nominal : ℚ) / maxheightOf (read_shapes font ranges) :=
    div_nonneg (Nat.cast_nonneg nominal) (le_of_lt hpos)
  show maxheightOf ((read_shapes font ranges).map
      (specScaleRecord ((nominal : ℚ) / maxheightOf (read_shapes font ranges)) border))
      = (nominal : ℚ)
  rw [maxheightOf_map_spec_scale _ hf _ border, mul_comm,
    div_mul_cancel₀ _ (ne_of_gt hpos)]

/-- Concrete one-glyph font used by witnesses: codepoint 65 has a 1 by 2
bounding box and advance 3. -/
def fontA : Font := fun i => if i = 65 then some (⟨0, 0, 1, 2⟩, 3) else none

/-- Witness for C2 at a concrete font and configuration. -/
theorem c2_witness :
    (read_shapes fontA [⟨65, 66⟩] ≠ [] ∧ 0 < maxheightOf (read_shapes fontA [⟨65, 66⟩]))
    ∧ ((build_charset fontA [⟨65, 66⟩] 4 2).2
          = (4 : ℚ) / maxheightOf (read_shapes fontA [⟨65, 66⟩])
      ∧ (build_charset fontA [⟨65, 66⟩] 4 2).1
          = (read_shapes fontA [⟨65, 66⟩]).map
              (specScaleRecord ((4 : ℚ) / maxheightOf (read_shapes fontA [⟨65, 66⟩])) 2)
      ∧ maxheightOf (build_charset fontA [⟨65, 66⟩] 4 2).1 = (4 : ℚ)) :=
  ⟨⟨by decide, by decide⟩,
   c2_scaler_nominal_height fontA [⟨65, 66⟩] 4 2 (by decide) (by decide)⟩

end ScalerClaims

section ImageClaims

/-- Counterexample to C5 as stated: at field value `v = 3/512` (which lies
in `[0,1]`), `v*256 = 1.5`; the code emits `int(1.5) = 1` while the claim's
`round(1.5) = 2`, in both the single-channel and the three-channel
branch. -/
theorem c5_counterexample :
    write_image_sdf_bytes 1 1 (fun _ _ => (3 : ℚ) / 512) = [1]
    ∧ write_image_msdf_bytes 1 1 (fun _ _ => ((3 : ℚ) / 512, 0, 0)) = [1, 0, 0]
    ∧ spec_round_byte ((3 : ℚ) / 512) = 2
    ∧ (0 : ℚ) ≤ (3 : ℚ) / 512 ∧ (3 : ℚ) / 512 ≤ 1 := by
  have hb : msdfgen_clamp (cpp_int_trunc ((3 : ℚ) / 512 * 0x100)) 0xff = 1 := by
    norm_num [msdfgen_clamp, cpp_int_trunc]
  have hb0 : msdfgen_clamp (cpp_int_trunc (0 : ℚ)) 0xff = 0 := by
    norm_num [msdfgen_clamp, cpp_int_trunc]
  refine ⟨?_, ?_, ?_, by norm_num, by norm_num⟩
  · simp [write_image_sdf_bytes, List.range_succ, hb]
  · simp [write_image_msdf_bytes, List.range_succ, hb, hb0]
  · norm_num [spec_round_byte, msdfgen_clamp, round_eq]

/-- C5 amended: each emitted channel byte is
`clamp(trunc(v*256), 0, 255)` with truncation toward zero (C++
`static_cast<int>`), not `round(v*256)`; the quantization is identical in
the single-channel and three-channel modes, and for `v` in `[0,1]` the
byte lies in `[0,255]`. -/
theorem c5_quantization_truncates (width height : ℕ)
    (p3 : ℕ → ℕ → ℚ × ℚ × ℚ) (p1 : ℕ → ℕ → ℚ) :
    write_image_msdf_bytes width height p3
      = (List.range height).flatMap (fun y => (List.range width).flatMap fun x =>
          [spec_trunc_byte (p3 x y).1, spec_trunc_byte (p3 x y).2.1,
           spec_trunc_byte (p3 x y).2.2])
    ∧ write_image_sdf_bytes width height p1
      = (List.range height).flatMap (fun y => (List.range width).flatMap fun x =>
          [spec_trunc_byte (p1 x y)])
    ∧ (∀ v : ℚ, 0 ≤ v → v ≤ 1 → 0 ≤ spec_trunc_byte v ∧ spec_trunc_byte v ≤ 255) := by
  refine ⟨rfl, rfl, ?_⟩
  intro v h0 h1
  unfold spec_trunc_byte msdfgen_clamp
  exact ⟨le_max_left 0 _, max_le (by norm_num) (min_le_right _ _)⟩

/-- Witness for the amended C5 at a concrete buffer. -/
theorem c5_witness :
    ((0 : ℚ) ≤ 1 / 2 ∧ (1 : ℚ) / 2 ≤ 1)
    ∧ (write_image_msdf_bytes 1 1 (fun _ _ => ((1 : ℚ) / 2, 0, 0))
        = (List.range 1).flatMap (fun y => (List.range 1).flatMap fun x =>
            [spec_trunc_byte ((fun _ _ => ((1 : ℚ) / 2, 0, 0)) x y).1,
             spec_trunc_byte ((fun _ _ => ((1 : ℚ) / 2, 0, 0)) x y).2.1,
             spec_trunc_byte ((fun _ _ => ((1 : ℚ) / 2, 0, 0)) x y).2.2])
      ∧ write_image_sdf_bytes 1 1 (fun _ _ => (1 : ℚ) / 2)
          = (List.range 1).flatMap (fun y => (List.range 1).flatMap fun x =>
              [spec_trunc_byte ((fun _ _ => (1 : ℚ) / 2) x y)])
      ∧ (∀ v : ℚ, 0 ≤ v → v ≤ 1 → 0 ≤ spec_trunc_byte v ∧ spec_trunc_byte v ≤ 255))
    ∧ (0 ≤ spec_trunc_byte ((1 : ℚ) / 2) ∧ spec_trunc_byte ((1 : ℚ) / 2) ≤ 255) :=
  ⟨⟨by norm_num, by norm_num⟩,
   c5_quantization_truncates 1 1 (fun _ _ => ((1 : ℚ) / 2, 0, 0)) (fun _ _ => (1 : ℚ) / 2),
   (c5_quantization_truncates 1 1 (fun _ _ => ((1 : ℚ) / 2, 0, 0))
       (fun _ _ => (1 : ℚ) / 2)).2.2 ((1 : ℚ) / 2) (by norm_num) (by norm_num)⟩

end ImageClaims

section PipelineClaims

/-- Configuration whose only codepoint range `[5,5)` is empty, so the
record set is empty whatever the font is. -/
def cfgEmptyRange : settings :=
  ⟨[⟨5, 5⟩], ⟨2048, 2048⟩, false, 32, false, 2, 2, 1, font_mode.msdf⟩

/-- C8 is violated by the code: with an empty codepoint range the record
set is empty and `maxRawHeight = 0`, yet `run` still calls `build_charset`
unconditionally, so the division `scaling = max_char_height / maxheight`
executes with divisor `0` (an IEEE infinity at runtime) — no caller
guards it.  The pipeline then proceeds normally. -/
theorem c8_unguarded_zero_divisor (font : Font) (probe : ℕ → Bool)
    (pack : List char_info → Bool) (fuel : ℕ) :
    read_shapes font [⟨5, 5⟩] = []
    ∧ maxheightOf (read_shapes font [⟨5, 5⟩]) = 0
    ∧ (build_charset font [⟨5, 5⟩] 32 2).2 = (32 : ℚ) / 0
    ∧ ∃ result, run_pipeline cfgEmptyRange font probe pack fuel = some result := by
  have hrs : read_shapes font [(⟨5, 5⟩ : codepoint_range)] = [] := by
    simp [read_shapes]
  refine ⟨hrs, by rw [hrs]; rfl, ?_, ?_⟩
  · have e1 : (build_charset font [⟨5, 5⟩] 32 2).2
        = ((32 : ℕ) : ℚ) / maxheightOf (read_shapes font [⟨5, 5⟩]) := rfl
    rw [e1, hrs]
    norm_num [maxheightOf]
  · cases hpk : pack (build_charset font [⟨5, 5⟩] 32 2).1 with
    | false =>
        exact ⟨none, by simp [run_pipeline, committed_height, cfgEmptyRange, hpk]⟩
    | true =>
        refine ⟨some (write_description
            (build_charset font [⟨5, 5⟩] 32 2).1 false 2,
            ⟨2048, 2048, 2, 2⟩), ?_⟩
        simp [run_pipeline, committed_height, cfgEmptyRange, hpk]

/-- C9: if the packing step of the final committed run fails, neither the
description artifact nor the image artifact is produced; if it succeeds,
both are produced together. -/
theorem c9_artifacts_all_or_nothing (cfg : settings) (font : Font)
    (probe : ℕ → Bool) (pack : List char_info → Bool) (fuel hgt : ℕ)
    (hc : committed_height cfg probe fuel = some hgt) :
    (pack (build_charset font cfg.codepoint_ranges hgt cfg.smoothpixels).1 = false →
        run_pipeline cfg font probe pack fuel = some none)
    ∧ (pack (build_charset font cfg.codepoint_ranges hgt cfg.smoothpixels).1 = true →
        run_pipeline cfg font probe pack fuel = some (some
          (write_description
              (build_charset font cfg.codepoint_ranges hgt cfg.smoothpixels).1
              cfg.use_spans cfg.smoothpixels,
           ⟨cfg.tex_dims.width, cfg.tex_dims.height, cfg.smoothpixels, cfg.spacing⟩))) := by
  constructor <;> intro hp <;> simp [run_pipeline, hc, hp]

/-- The font-too-small scenario of the spec: texture 4 by 4, nominal
height 32, no auto-sizing. -/
def cfgTiny : settings :=
  ⟨[⟨65, 66⟩], ⟨4, 4⟩, false, 32, false, 2, 2, 1, font_mode.msdf⟩

/-- A packer that always fails. -/
def packNever : List char_info → Bool := fun _ => false

/-- Witness for C9: with a packer that rejects, the run produces no
artifacts at all. -/
theorem c9_witness :
    committed_height cfgTiny probeNever 1 = some 32
    ∧ run_pipeline cfgTiny fontA probeNever packNever 1 = some none :=
  ⟨rfl, (c9_artifacts_all_or_nothing cfgTiny fontA probeNever packNever 1 32 rfl).1 rfl⟩

/-- C10: every path of `main` returns exit status 0 — parse errors,
`--help`, FreeType initialization failure, font-open failure, and any
outcome of `run` (including a final packing failure) all included. -/
theorem c10_exit_status_always_zero (pr : parse_result) (ft_ok font_ok : Bool)
    (font : Font) (probe : ℕ → Bool) (pack : List char_info → Bool) (fuel : ℕ) :
    main_exit pr ft_ok font_ok font probe pack fuel = 0 := by
  cases pr <;> cases ft_ok <;> cases font_ok <;> rfl

end PipelineClaims

section SerializerLemmas

theorem sortCharinfos_perm (l : List char_info) : (sortCharinfos l).Perm l :=
  List.perm_insertionSort cpLe l

theorem sortCharinfos_ne_nil {l : List char_info} (h : l ≠ []) :
    sortCharinfos l ≠ [] := by
  intro hs
  exact h (List.Perm.eq_nil ((sortCharinfos_perm l).symm.trans (hs ▸ List.Perm.refl _)))

theorem sortCharinfos_pairwise (l : List char_info)
    (hnd : (l.map fun c => c.codepoint).Nodup) :
    (sortCharinfos l).Pairwise fun a b => a.codepoint < b.codepoint := by
  have hs : (sortCharinfos l).Pairwise cpLe := List.sorted_insertionSort cpLe l
  have hnd' : ((sortCharinfos l).map fun c => c.codepoint).Nodup := by
    rw [List.Perm.nodup_iff (List.Perm.map _ (sortCharinfos_perm l))]
    exact hnd
  have hne : (sortCharinfos l).Pairwise fun a b => a.codepoint ≠ b.codepoint :=
    List.pairwise_map.mp hnd'
  exact List.Pairwise.imp (fun h => lt_of_le_of_ne h.1 h.2) (hs.and hne)

theorem maxCp_cons (c : char_info) (l : List char_info) :
    maxCp (c :: l) = max c.codepoint (maxCp l) := rfl

theorem le_maxCp {l : List char_info} {x : char_info} (hx : x ∈ l) :
    x.codepoint ≤ maxCp l := by
  induction l with
  | nil => cases hx
  | cons c rest ih =>
      rw [maxCp_cons]
      rcases List.mem_cons.mp hx with h | h
      · subst h; exact le_max_left _ _
      · exact le_trans (ih h) (le_max_right _ _)

theorem maxCp_perm {l₁ l₂ : List char_info} (h : l₁.Perm l₂) : maxCp l₁ = maxCp l₂ := by
  induction h with
  | nil => rfl
  | cons x _ ih => rw [maxCp_cons, maxCp_cons, ih]
  | swap x y l => rw [maxCp_cons, maxCp_cons, maxCp_cons, maxCp_cons, max_left_comm]
  | trans _ _ ih₁ ih₂ => rw [ih₁, ih₂]

theorem emit_span_entries : ∀ (lw : ℕ) (l : List char_info),
    (emitEntries true lw l).1 = l.map realEntry := by
  intro lw l
  induction l generalizing lw with
  | nil => rfl
  | cons c rest ih => simp [emitEntries, ih]

theorem emit_lw (us : Bool) : ∀ (l : List char_info) (lw : ℕ), l ≠ [] →
    l.Pairwise (fun a b => a.codepoint < b.codepoint) →
    (emitEntries us lw l).2 = maxCp l + 1 := by
  intro l
  induction l with
  | nil => intro lw h _; cases h rfl
  | cons c rest ih =>
      intro lw _ hp
      have h2 : (emitEntries us lw (c :: rest)).2
          = (emitEntries us (c.codepoint + 1) rest).2 := rfl
      rw [h2]
      cases rest with
      | nil =>
          have h3 : (emitEntries us (c.codepoint + 1) ([] : List char_info)).2
              = c.codepoint + 1 := rfl
          rw [h3, maxCp_cons]
          have h4 : maxCp [] = 0 := rfl
          rw [h4, max_eq_left (Nat.zero_le _)]
      | cons d t =>
          rw [ih (c.codepoint + 1) (by simp) (List.pairwise_cons.mp hp).2]
          have hcd : c.codepoint < d.codepoint :=
            (List.pairwise_cons.mp hp).1 d (by simp)
          have hle : c.codepoint ≤ maxCp (d :: t) :=
            le_trans (le_of_lt hcd) (le_maxCp (by simp))
          rw [maxCp_cons c (d :: t), max_eq_right hle]

theorem denseAt_low {l : List char_info} {k : ℕ} (c : char_info)
    (hck : k < c.codepoint) (hall : ∀ x ∈ l, c.codepoint ≤ x.codepoint) :
    denseAt (c :: l) k = zeroEntry := by
  unfold denseAt
  rw [List.find?_eq_none.mpr ?_]
  intro x hx
  rcases List.mem_cons.mp hx with h | h
  · subst h
    simp only [beq_iff_eq]
    omega
  · have := hall x h
    simp only [beq_iff_eq]
    omega

theorem denseAt_tail {l : List char_info} {k : ℕ} (c : char_info)
    (hck : c.codepoint ≠ k) : denseAt (c :: l) k = denseAt l k := by
  unfold denseAt
  rw [List.find?_cons]
  have : (c.codepoint == k) = false := beq_eq_false_iff_ne.mpr hck
  rw [this]

theorem denseAt_self (c : char_info) (l : List char_info) :
    denseAt (c :: l) c.codepoint = realEntry c := by
  unfold denseAt
  rw [List.find?_cons]
  have : (c.codepoint == c.codepoint) = true := beq_iff_eq.mpr rfl
  rw [this]

theorem emit_dense : ∀ (l : List char_info) (lw : ℕ),
    l.Pairwise (fun a b => a.codepoint < b.codepoint) →
    (∀ c ∈ l, lw ≤ c.codepoint) → l ≠ [] →
    (emitEntries false lw l).1
      = (List.range' lw (maxCp l + 1 - lw)).map (denseAt l) := by
  intro l
  induction l with
  | nil => intro lw _ _ h; cases h rfl
  | cons c rest ih =>
      intro lw hp hlb _
      have hcd : ∀ x ∈ rest, c.codepoint < x.codepoint := (List.pairwise_cons.mp hp).1
      have hlw : lw ≤ c.codepoint := hlb c (by simp)
      have hL : (emitEntries false lw (c :: rest)).1
          = List.replicate (c.codepoint - lw) zeroEntry
            ++ realEntry c :: (emitEntries false (c.codepoint + 1) rest).1 := rfl
      rw [hL]
      have hlowmap : (List.range' lw (c.codepoint - lw)).map (denseAt (c :: rest))
          = List.replicate (c.codepoint - lw) zeroEntry := by
        have hz : ∀ k ∈ List.range' lw (c.codepoint - lw),
            denseAt (c :: rest) k = (fun _ : ℕ => zeroEntry) k := by
          intro k hk
          have hk' := List.mem_range'_1.mp hk
          exact denseAt_low c (by omega) (fun x hx => le_of_lt (hcd x hx))
        rw [List.map_congr_left hz, List.map_const', List.length_range']
      cases rest with
      | nil =>
          have hm : maxCp [c] = c.codepoint := by
            rw [maxCp_cons]
            exact max_eq_left (Nat.zero_le _)
          rw [hm, show c.codepoint + 1 - lw = (c.codepoint - lw) + 1 by omega,
            List.range'_concat, show lw + 1 * (c.codepoint - lw) = c.codepoint by omega,
            List.map_append, hlowmap]
          congr 1
          rw [List.map_cons, List.map_nil, denseAt_self]
          rfl
      | cons d t =>
          have hIH := ih (c.codepoint + 1) (List.pairwise_cons.mp hp).2
            (fun x hx => hcd x hx) (by simp)
          have hcle : c.codepoint ≤ maxCp (d :: t) :=
            le_trans (le_of_lt (hcd d (by simp))) (le_maxCp (by simp))
          have hm : maxCp (c :: d :: t) = maxCp (d :: t) := by
            rw [maxCp_cons]
            exact max_eq_right hcle
          rw [hm]
          have hsplit : List.range' lw (maxCp (d :: t) + 1 - lw)
              = List.range' lw (c.codepoint - lw)
                ++ c.codepoint ::
                  List.range' (c.codepoint + 1)
                    (maxCp (d :: t) + 1 - (c.codepoint + 1)) := by
            have h1 := List.range'_append lw (c.codepoint - lw)
              (maxCp (d :: t) + 1 - c.codepoint) 1
            rw [show lw + 1 * (c.codepoint - lw) = c.codepoint by omega] at h1
            rw [show maxCp (d :: t) + 1 - lw
                = (maxCp (d :: t) + 1 - c.codepoint) + (c.codepoint - lw) by omega, ← h1]
            congr 1
            rw [show maxCp (d :: t) + 1 - c.codepoint
                = (maxCp (d :: t) + 1 - (c.codepoint + 1)) + 1 by omega,
              List.range'_succ]
          rw [hsplit, List.map_append, List.map_cons, hlowmap]
          congr 1
          rw [denseAt_self]
          congr 1
          rw [hIH]
          apply List.map_congr_left
          intro k hk
          have hk' := List.mem_range'_1.mp hk
          exact (denseAt_tail c (by omega)).symm

theorem splitRun_length (cp : ℕ) (l : List char_info) :
    (splitRun cp l).1.length + (splitRun cp l).2.length = l.length := by
  induction l generalizing cp with
  | nil => rfl
  | cons c rest ih =>
      simp only [splitRun]
      split
      · have := ih c.codepoint
        simp only [List.length_cons]
        omega
      · simp

theorem spanTable_nil (cum : ℕ) : spanTable [] cum = [] := by
  rw [spanTable]

theorem spanTable_cons (c : char_info) (rest : List char_info) (cum : ℕ) :
    spanTable (c :: rest) cum
      = ⟨c.codepoint, c.codepoint + (1 + (splitRun c.codepoint rest).1.length), cum⟩ ::
        spanTable (splitRun c.codepoint rest).2
          (cum + (1 + (splitRun c.codepoint rest).1.length)) := by
  rw [spanTable]

theorem spanTable_head_cum : ∀ (l : List char_info) (cum : ℕ) (sp : bitmap_span),
    (spanTable l cum).head? = some sp → sp.cumulative = cum := by
  intro l cum sp h
  cases l with
  | nil => simp [spanTable] at h
  | cons c rest =>
      rw [spanTable_cons] at h
      simp only [List.head?_cons, Option.some.injEq] at h
      rw [← h]

theorem spanTable_sizes_sum_aux : ∀ (n : ℕ) (l : List char_info) (cum : ℕ),
    l.length ≤ n →
    ((spanTable l cum).map fun sp => sp.stop - sp.start).sum = l.length := by
  intro n
  induction n with
  | zero =>
      intro l cum hl
      have : l = [] := List.eq_nil_of_length_eq_zero (by omega)
      subst this
      rw [spanTable_nil]
      rfl
  | succ n ih =>
      intro l cum hl
      cases l with
      | nil => rw [spanTable_nil]; rfl
      | cons c rest =>
          rw [spanTable_cons, List.map_cons, List.sum_cons]
          have hsl := splitRun_length c.codepoint rest
          have hrec := ih (splitRun c.codepoint rest).2
            (cum + (1 + (splitRun c.codepoint rest).1.length))
            (by simp only [List.length_cons] at hl; omega)
          rw [hrec]
          simp only [List.length_cons]
          omega

theorem spanTable_start_lt_stop_aux : ∀ (n : ℕ) (l : List char_info) (cum : ℕ),
    l.length ≤ n → ∀ sp ∈ spanTable l cum, sp.start < sp.stop := by
  intro n
  induction n with
  | zero =>
      intro l cum hl
      have : l = [] := List.eq_nil_of_length_eq_zero (by omega)
      subst this
      intro sp hsp
      rw [spanTable_nil] at hsp
      cases hsp
  | succ n ih =>
      intro l cum hl
      cases l with
      | nil => intro sp hsp; rw [spanTable_nil] at hsp; cases hsp
      | cons c rest =>
          rw [spanTable_cons]
          intro sp hsp
          rcases List.mem_cons.mp hsp with h | h
          · subst h
            simp only
            omega
          · have hsl := splitRun_length c.codepoint rest
            exact ih (splitRun c.codepoint rest).2 _
              (by simp only [List.length_cons] at hl; omega) sp h

theorem spanTable_chain_aux : ∀ (n : ℕ) (l : List char_info) (cum : ℕ),
    l.length ≤ n →
    List.Chain' (fun a b => b.cumulative = a.cumulative + (a.stop - a.start)
      ∧ a.cumulative < b.cumulative) (spanTable l cum) := by
  intro n
  induction n with
  | zero =>
      intro l cum hl
      have : l = [] := List.eq_nil_of_length_eq_zero (by omega)
      subst this
      rw [spanTable_nil]
      exact List.chain'_nil
  | succ n ih =>
      intro l cum hl
      cases l with
      | nil => rw [spanTable_nil]; exact List.chain'_nil
      | cons c rest =>
          rw [spanTable_cons, List.chain'_cons']
          have hsl := splitRun_length c.codepoint rest
          constructor
          · intro y hy
            have hcum := spanTable_head_cum _ _ y hy
            constructor
            · rw [hcum]
              simp only
              omega
            · rw [hcum]
              simp only
              omega
          · exact ih (splitRun c.codepoint rest).2 _
              (by simp only [List.length_cons] at hl; omega)

end SerializerLemmas

section SerializerClaims

theorem write_description_entries_dense (charinfos : List char_info)
    (smoothpixels : ℕ) (hne : charinfos ≠ [])
    (hnd : (charinfos.map fun c => c.codepoint).Nodup) :
    (write_description charinfos false smoothpixels).entries
      = (List.range (maxCp charinfos + 1)).map (denseAt (sortCharinfos charinfos)) := by
  have hps := sortCharinfos_pairwise charinfos hnd
  have hsne := sortCharinfos_ne_nil hne
  have he : (write_description charinfos false smoothpixels).entries
      = (emitEntries false 0 (sortCharinfos charinfos)).1 := rfl
  rw [he, emit_dense (sortCharinfos charinfos) 0 hps (fun c _ => Nat.zero_le _) hsne,
    maxCp_perm (sortCharinfos_perm charinfos), Nat.sub_zero, ← List.range_eq_range']

/-- C3: after sorting by codepoint, DENSE mode emits exactly one entry per
codepoint from 0 to the maximum retained codepoint (the unique retained
record at its codepoint, the zero placeholder at every gap), so the entry
at array index `k` corresponds to codepoint `k`; SPAN mode emits the table
of contiguous runs whose cumulative offsets start at 0, strictly increase,
and partition the gap-free entries array with no overlaps or gaps.
(Codepoints are assumed distinct, as the spec expects.) -/
theorem c3_serializer_round_trip (charinfos : List char_info) (smoothpixels : ℕ)
    (hne : charinfos ≠ [])
    (hnd : (charinfos.map fun c => c.codepoint).Nodup) :
    (write_description charinfos false smoothpixels).entries
        = (List.range (maxCp charinfos + 1)).map (denseAt (sortCharinfos charinfos))
    ∧ (write_description charinfos true smoothpixels).spans
        = some (spanTable (sortCharinfos charinfos) 0)
    ∧ spanTable (sortCharinfos charinfos) 0 ≠ []
    ∧ (∀ sp ∈ spanTable (sortCharinfos charinfos) 0, sp.start < sp.stop)
    ∧ (∀ sp : bitmap_span, (spanTable (sortCharinfos charinfos) 0).head? = some sp →
        sp.cumulative = 0)
    ∧ List.Chain' (fun a b => b.cumulative = a.cumulative + (a.stop - a.start)
        ∧ a.cumulative < b.cumulative) (spanTable (sortCharinfos charinfos) 0)
    ∧ ((spanTable (sortCharinfos charinfos) 0).map fun sp => sp.stop - sp.start).sum
        = (write_description charinfos true smoothpixels).entries.length := by
  have hsne := sortCharinfos_ne_nil hne
  refine ⟨write_description_entries_dense charinfos smoothpixels hne hnd, rfl,
    ?_, ?_, ?_, ?_, ?_⟩
  · cases hs : sortCharinfos charinfos with
    | nil => exact absurd hs hsne
    | cons c rest => rw [spanTable_cons]; exact List.cons_ne_nil _ _
  · exact spanTable_start_lt_stop_aux (sortCharinfos charinfos).length _ 0 le_rfl
  · intro sp h
    exact spanTable_head_cum _ 0 sp h
  · exact spanTable_chain_aux (sortCharinfos charinfos).length _ 0 le_rfl
  · have he : (write_description charinfos true smoothpixels).entries
        = (emitEntries true 0 (sortCharinfos charinfos)).1 := rfl
    rw [he, emit_span_entries, List.length_map,
      spanTable_sizes_sum_aux (sortCharinfos charinfos).length _ 0 le_rfl]

/-- Concrete records used by the serializer witnesses. -/
def chA : char_info := ⟨0, ⟨0, 0, 1, 1⟩, 1, ⟨0, 0, 0, 0⟩, ⟨0, 0⟩⟩

/-- A second record with codepoint 2, leaving a gap at codepoint 1. -/
def chC : char_info := ⟨2, ⟨0, 0, 1, 1⟩, 1, ⟨0, 0, 0, 0⟩, ⟨0, 0⟩⟩

/-- Witness for C3 at a concrete unsorted record set with a codepoint
gap. -/
theorem c3_witness :
    (([chC, chA] : List char_info) ≠ []
      ∧ (([chC, chA] : List char_info).map fun c => c.codepoint).Nodup)
    ∧ ((write_description [chC, chA] false 2).entries
          = (List.range (maxCp [chC, chA] + 1)).map (denseAt (sortCharinfos [chC, chA]))
      ∧ (write_description [chC, chA] true 2).spans
          = some (spanTable (sortCharinfos [chC, chA]) 0)
      ∧ spanTable (sortCharinfos [chC, chA]) 0 ≠ []
      ∧ (∀ sp ∈ spanTable (sortCharinfos [chC, chA]) 0, sp.start < sp.stop)
      ∧ (∀ sp : bitmap_span, (spanTable (sortCharinfos [chC, chA]) 0).head? = some sp →
          sp.cumulative = 0)
      ∧ List.Chain' (fun a b => b.cumulative = a.cumulative + (a.stop - a.start)
          ∧ a.cumulative < b.cumulative) (spanTable (sortCharinfos [chC, chA]) 0)
      ∧ ((spanTable (sortCharinfos [chC, chA]) 0).map fun sp => sp.stop - sp.start).sum
          = (write_description [chC, chA] true 2).entries.length) :=
  ⟨⟨List.cons_ne_nil _ _, by decide⟩,
   c3_serializer_round_trip [chC, chA] 2 (List.cons_ne_nil _ _) (by decide)⟩

/-- Counterexample to C4 as stated: for the single retained codepoint 0 the
glyph table has exactly one entry in both modes, but the trailing
`bitmap_chars_count = last_written + 1` field is 2. -/
theorem c4_counterexample :
    (write_description [chA] false 2).count = 2
    ∧ (write_description [chA] false 2).entries.length = 1
    ∧ (write_description [chA] true 2).count = 2
    ∧ (write_description [chA] true 2).entries.length = 1
    ∧ (2 : ℕ) ≠ 1 := by
  exact ⟨rfl, rfl, rfl, rfl, by decide⟩

/-- C4 amended: the count field equals the maximum retained codepoint plus
two (`last_written + 1` where `last_written` ends at `maxCodepoint + 1`),
in both DENSE and SPAN mode; in DENSE mode that is one more than the
number of metrics entries actually emitted (and in SPAN mode it is
unrelated to the number of emitted entries). -/
theorem c4_count_exceeds_entries (charinfos : List char_info) (use_spans : Bool)
    (smoothpixels : ℕ) (hne : charinfos ≠ [])
    (hnd : (charinfos.map fun c => c.codepoint).Nodup) :
    (write_description charinfos use_spans smoothpixels).count = maxCp charinfos + 2
    ∧ (write_description charinfos false smoothpixels).count
        = (write_description charinfos false smoothpixels).entries.length + 1 := by
  have hps := sortCharinfos_pairwise charinfos hnd
  have hsne := sortCharinfos_ne_nil hne
  have hcount : ∀ us : Bool, (write_description charinfos us smoothpixels).count
      = maxCp charinfos + 2 := by
    intro us
    have hc : (write_description charinfos us smoothpixels).count
        = (emitEntries us 0 (sortCharinfos charinfos)).2 + 1 := rfl
    rw [hc, emit_lw us (sortCharinfos charinfos) 0 hsne hps,
      maxCp_perm (sortCharinfos_perm charinfos)]
  refine ⟨hcount use_spans, ?_⟩
  rw [hcount false, write_description_entries_dense charinfos smoothpixels hne hnd,
    List.length_map, List.length_range]

/-- Witness for the amended C4 at a concrete record set. -/
theorem c4_witness :
    (([chA] : List char_info) ≠ []
      ∧ (([chA] : List char_info).map fun c => c.codepoint).Nodup)
    ∧ ((write_description [chA] true 2).count = maxCp [chA] + 2
      ∧ (write_description [chA] false 2).count
          = (write_description [chA] false 2).entries.length + 1) :=
  ⟨⟨List.cons_ne_nil _ _, by decide⟩,
   c4_count_exceeds_entries [chA] true 2 (List.cons_ne_nil _ _) (by decide)⟩

end SerializerClaims

section SizerStepCounterexample

/-- Counterexample to C1 as stated: at the (reachable, initial) state
`low = 0, high = 2^63, highest = 2` of the configuration with requested
maximum height `2^63` and texture height 1, a successful probe yields
`high = min(2^63 * 2 mod 2^64, 1) = 0` in the code's `size_t` arithmetic,
while the claim's exact-arithmetic step relation demands
`high = min(2^63 * 2, 2 - 1) = 1`. -/
theorem c1_counterexample :
    Reach cfgC7 probeC7 (initState cfgC7)
    ∧ (initState cfgC7).low ≠ (initState cfgC7).high
    ∧ codeStep (initState cfgC7) true ≠ specStep (initState cfgC7) true :=
  ⟨Reach.init, by decide, by decide⟩

end SizerStepCounterexample
